import Mathlib

/-! Shallow embedding of the raster acquisition and compositing pipeline of
clustering_Zimmerman.py: the result cache (cached, source lines 75-135), the
granule link resolver (get_earthaccess_links, lines 405-441), the band raster
loader (open_dataarray, lines 448-460), the quality mask builder
(compute_quality_mask, lines 462-474), the granule compositor
(compute_reflectance_da, lines 443-508) and the mosaic temporal reducer
(merge_and_composite_arrays, lines 543-563).

Modelling conventions: machine floats become exact rationals; a missing pixel
(NaN) is Option.none; rasters are grids of optional rationals on a common
aligned pixel grid, a cell a tile does not cover being none; pandas frames
become lists of rows, and pandas groupby produces the groups in sorted key
order with rows in original order; external collaborators (file opening, crs
reprojection, bounding box clipping) are parameters of an environment record.
-/

set_option maxRecDepth 8000

/-! Generic list helpers: first-occurrence-free deduplication and insertion
sort, used to model the sorted-key iteration order of pandas groupby. -/

def dedup {α : Type} [DecidableEq α] : List α → List α
  | [] => []
  | x :: xs => if x ∈ xs then dedup xs else x :: dedup xs

def insSorted {α : Type} (le : α → α → Bool) (x : α) : List α → List α
  | [] => [x]
  | y :: ys => if le x y then x :: y :: ys else y :: insSorted le x ys

def sortBy {α : Type} (le : α → α → Bool) : List α → List α
  | [] => []
  | x :: xs => insSorted le x (sortBy le xs)

def charsLe : List Char → List Char → Bool
  | [], _ => true
  | _ :: _, [] => false
  | a :: as2, b :: bs => if a = b then charsLe as2 bs else Nat.blt a.toNat b.toNat

def strLe (a b : String) : Bool := charsLe a.data b.data

def charsPre : List Char → List Char → Bool
  | [], _ => true
  | _ :: _, [] => false
  | a :: as2, b :: bs => a = b && charsPre as2 bs

/-- str.startswith on the character lists of the two strings. -/
def strStartsWith (s pre : String) : Bool := charsPre pre.data s.data

def decValAux : List Char → Nat → Option Nat
  | [], acc => some acc
  | c :: cs, acc =>
    if c.isDigit then decValAux cs (acc * 10 + (c.toNat - 48)) else none

/-- Decimal value of a nonempty all-digit string, as Python int on a band
suffix such as 04; none when empty or not all digits. -/
def strToNat (s : String) : Option Nat :=
  match s.data with
  | [] => none
  | l => decValAux l 0

/-! Result cache: the cached decorator (source lines 75-135). The pickle jar
directory becomes an association list from key strings to opaque serialized
blobs; pickle.dump and pickle.load become a dump/load function pair supplied
by the caller. -/

/-- Effective cache key (source lines 106-110): the function key, joined with
an underscore to the per-call cache_key discriminator when one is supplied. -/
def effective_key (func_key : String) (cache_key : Option String) : String :=
  match cache_key with
  | some ck => func_key ++ "_" ++ ck
  | none => func_key

/-- Lookup of a stored blob in the cache directory, newest entry first. -/
def store_lookup {β : Type} : List (String × β) → String → Option β
  | [], _ => none
  | (k2, b) :: rest, k => if k2 = k then some b else store_lookup rest k

/-- Writing a pickle file under a key overwrites any previous file: inserting
at the front shadows older entries for store_lookup. -/
def store_insert {β : Type} (st : List (String × β)) (k : String) (b : β) :
    List (String × β) :=
  (k, b) :: st

/-- The wrapper compute_and_cache (source lines 95-131): if no blob exists for
the effective key or override is set, run the computation, store its dumped
result and return it (third component true records that the computation ran);
otherwise load and return the stored blob without running the computation. -/
def compute_and_cache {α β : Type} (func_key : String) (override : Bool)
    (compute_function : Unit → α) (dump : α → β) (load : β → α)
    (cache_key : Option String) (st : List (String × β)) :
    α × List (String × β) × Bool :=
  let key := effective_key func_key cache_key
  match store_lookup st key with
  | none =>
    let result := compute_function ()
    (result, store_insert st key (dump result), true)
  | some blob =>
    if override then
      let result := compute_function ()
      (result, store_insert st key (dump result), true)
    else
      (load blob, st, false)

/-- Default value of the override parameter of cached (source line 75:
def cached(func_key, override=True)). -/
def cached_override_default : Bool := true

/-- The wrapper obtained by applying the cached decorator without an explicit
override argument, so that override keeps its default value. -/
def cached_apply_default {α β : Type} (func_key : String)
    (compute_function : Unit → α) (dump : α → β) (load : β → α)
    (cache_key : Option String) (st : List (String × β)) :
    α × List (String × β) × Bool :=
  compute_and_cache func_key cached_override_default compute_function dump load
    cache_key st

/-! Raster model. A raster is a grid of optional rationals over a common
aligned pixel grid; none is a missing pixel (NaN / nodata / not covered). -/

abbrev Raster : Type := List (List (Option ℚ))

/-- Value of the raster cell in row i, column j; cells outside the grid read
as missing. -/
def rcell (r : Raster) (i j : Nat) : Option ℚ := (r.getD i []).getD j none

def mkRaster (h w : Nat) (f : Nat → Nat → Option ℚ) : Raster :=
  (List.range h).map (fun i => (List.range w).map (fun j => f i j))

def raster_h (r : Raster) : Nat := r.length

def raster_w (r : Raster) : Nat := (r.headD []).length

/-- Spatial merge rxrmerge.merge_arrays (source line 551): on the common
aligned grid, each output cell takes the first valid (non-missing) value among
the input tiles, mirroring the first-wins painting order of rasterio merge;
the output grid is the grid of the first tile (all tiles of one date share the
common grid in this embedding). -/
def merge_arrays (das : List Raster) : Raster :=
  mkRaster (raster_h (das.headD [])) (raster_w (das.headD []))
    (fun i j => (das.map (fun d => rcell d i j)).findSome? id)

/-- The negative-value sweep merged_da.where(merged_da>0) (source line 553):
keep a cell only when its value is strictly positive, else missing. -/
def where_pos (r : Raster) : Raster :=
  r.map (fun row => row.map (fun o =>
    Option.bind o (fun v => if 0 < v then some v else none)))

def ratLe (a b : ℚ) : Bool := decide (a ≤ b)

/-- Median of a list of rationals, mirroring numpy nanmedian on the valid
values of a slice: none on an empty list, the middle element of the sorted
list for odd length, the average of the two middle elements for even length. -/
def medianQ (xs : List ℚ) : Option ℚ :=
  if (sortBy ratLe xs).length = 0 then none
  else if (sortBy ratLe xs).length % 2 = 1 then
    some ((sortBy ratLe xs).getD ((sortBy ratLe xs).length / 2) 0)
  else
    some (((sortBy ratLe xs).getD ((sortBy ratLe xs).length / 2 - 1) 0
         + (sortBy ratLe xs).getD ((sortBy ratLe xs).length / 2) 0) / 2)

/-- The non-missing values among the per-date rasters at one pixel. -/
def valid_values (das : List Raster) (i j : Nat) : List ℚ :=
  (das.map (fun d => rcell d i j)).filterMap id

/-- Temporal composite xr.concat(merged_das, dim=datetime).median(datetime)
(source line 558): per-pixel median across dates, skipping missing values,
missing when every date is missing at that pixel. -/
def composite_cells (das : List Raster) : Raster :=
  mkRaster (raster_h (das.headD [])) (raster_w (das.headD []))
    (fun i j => medianQ (valid_values das i j))

/-- Cloud mask application band_cropped.where(cloud_mask) (source line 504):
keep a pixel where the mask value is nonzero, else missing. -/
def apply_mask (da : Raster) (mask : List (List Nat)) : Raster :=
  List.zipWith (fun drow mrow =>
    List.zipWith (fun o m => if m = 0 then none else o) drow mrow) da mask

/-! Quality mask builder compute_quality_mask (source lines 462-474). -/

/-- np.unpackbits with bitorder little on one 8-bit value: the list of its 8
bits, least significant bit first. -/
def unpackbits_le (v : Nat) : List Nat :=
  (List.range 8).map (fun i => v / 2 ^ i % 2)

/-- Per-pixel quality mask value np.prod(bits[..., mask_bits] == 0, axis=-1)
(source line 473): the product over the selected bit positions of the 0/1
indicator that the bit is clear; astype(np.uint8) reduces the value mod 256. -/
def compute_quality_mask_value (v : Nat) (mask_bits : List Nat) : Nat :=
  (mask_bits.map (fun b =>
    if (unpackbits_le (v % 256)).getD b 0 = 0 then 1 else 0)).foldl
    (fun a x => a * x) 1

/-- astype(np.uint8) on a pixel of the unscaled Fmask raster. -/
def rat_to_uint8 (q : ℚ) : Nat := (Rat.floor q).toNat % 256

/-- compute_quality_mask on a whole raster with the default mask_bits=[1,2,3]
(source line 462): missing cells read as value 0. -/
def compute_quality_mask_grid (da : Raster) : List (List Nat) :=
  da.map (fun row => row.map (fun o =>
    compute_quality_mask_value (rat_to_uint8 (o.getD 0)) [1, 2, 3]))

/-! Granule link resolver get_earthaccess_links (source lines 405-441). The
fixed filename grammar is the regular expression of source line 409, embedded
as a token list run by a leftmost, greedy, backtracking matcher that mirrors
the Python re.search semantics for this pattern. -/

inductive Tok where
  | lit : Char → Tok
  | one : (Char → Bool) → Tok
  | many1 : (Char → Bool) → Tok
  | manyCont : (Char → Bool) → Tok
  | grp : Nat → (Char → Bool) → Tok
  | grpCont : Nat → (Char → Bool) → List Char → Tok

abbrev Caps : Type := List (Nat × List Char)

/-- Backtracking matcher for the token form of the pattern: lit and one
consume a single character, many1 and grp consume a greedy nonempty run of
class characters (grp recording the consumed run as a capture group on
commit), trying longer runs first exactly as Python re backtracks. The fuel
argument strictly bounds the recursion; every call consumes either one token
or one input character, so tokens + characters + 1 fuel always suffices. -/
def runToks : Nat → List Tok → List Char → Caps → Option Caps
  | _, [], _, caps => some caps
  | 0, _ :: _, _, _ => none
  | fuel + 1, Tok.lit c :: ts, xs, caps =>
    match xs with
    | [] => none
    | x :: r => if x = c then runToks fuel ts r caps else none
  | fuel + 1, Tok.one p :: ts, xs, caps =>
    match xs with
    | [] => none
    | x :: r => if p x then runToks fuel ts r caps else none
  | fuel + 1, Tok.many1 p :: ts, xs, caps =>
    match xs with
    | [] => none
    | x :: r => if p x then runToks fuel (Tok.manyCont p :: ts) r caps else none
  | fuel + 1, Tok.manyCont p :: ts, xs, caps =>
    match xs with
    | [] => runToks fuel ts [] caps
    | x :: r =>
      if p x then
        match runToks fuel (Tok.manyCont p :: ts) r caps with
        | some res => some res
        | none => runToks fuel ts xs caps
      else runToks fuel ts xs caps
  | fuel + 1, Tok.grp g p :: ts, xs, caps =>
    match xs with
    | [] => none
    | x :: r =>
      if p x then runToks fuel (Tok.grpCont g p [x] :: ts) r caps else none
  | fuel + 1, Tok.grpCont g p acc :: ts, xs, caps =>
    match xs with
    | [] => runToks fuel ts [] ((g, acc) :: caps)
    | x :: r =>
      if p x then
        match runToks fuel (Tok.grpCont g p (acc ++ [x]) :: ts) r caps with
        | some res => some res
        | none => runToks fuel ts xs ((g, acc) :: caps)
      else runToks fuel ts xs ((g, acc) :: caps)

/-- re.search: try an unanchored match at each start position from the left. -/
def searchToks (toks : List Tok) : List Char → Option Caps
  | [] => runToks (toks.length + 1) toks [] []
  | x :: r =>
    match runToks (toks.length + (x :: r).length + 2) toks (x :: r) [] with
    | some caps => some caps
    | none => searchToks toks r

/-- Python regex class backslash-w on the ASCII file names. -/
def isWordChar (c : Char) : Bool := c.isAlpha || c.isDigit || c = '_'

/-- Python regex class [A-Za-z0-9]. -/
def isAlnumChar (c : Char) : Bool := c.isAlpha || c.isDigit

def tile_group : Nat := 0

def band_group : Nat := 1

/-- Token form of the source line 409 pattern: a dot, the tile_id group of
word characters, a dot, digits, T, digits, a dot, v, a digit, a dot, a digit,
a dot, the band group of alphanumerics, then the literal .tif. -/
def urlToks : List Tok :=
  [Tok.lit '.', Tok.grp tile_group isWordChar, Tok.lit '.',
   Tok.many1 Char.isDigit, Tok.lit 'T', Tok.many1 Char.isDigit,
   Tok.lit '.', Tok.lit 'v', Tok.one Char.isDigit, Tok.lit '.',
   Tok.one Char.isDigit, Tok.lit '.', Tok.grp band_group isAlnumChar,
   Tok.lit '.', Tok.lit 't', Tok.lit 'i', Tok.lit 'f']

def capLookup : Caps → Nat → Option (List Char)
  | [], _ => none
  | (g2, s) :: rest, g => if g2 = g then some s else capLookup rest g

/-- url_re.search(file.full_name) followed by match.group extraction of the
tile_id and band capture groups. -/
def urlSearch (name : String) : Option (String × String) :=
  match searchToks urlToks name.data with
  | none => none
  | some caps =>
    match capLookup caps tile_group, capLookup caps band_group with
    | some t, some b => some (String.mk t, String.mk b)
    | _, _ => none

/-- One catalog search result: the umm metadata fields the resolver reads
(GranuleUR, the beginning datetime, the first polygon ring) together with the
file names earthaccess.open resolves the granule to. Datetimes are opaque
naturals, footprint points opaque integer pairs. -/
structure Granule where
  granule_ur : String
  datetime : Nat
  geometry : List (Int × Int)
  files : List String
deriving DecidableEq

/-- One row of the link table (source lines 426-437). -/
structure LinkRow where
  datetime : Nat
  tile_id : String
  band : String
  url : String
  geometry : List (Int × Int)
deriving DecidableEq

/-- The rows one granule contributes (source lines 423-437): one row per file
whose name matches the grammar, carrying the granule datetime and footprint
and the two capture groups; non-matching files contribute nothing. -/
def granule_rows (g : Granule) : List LinkRow :=
  g.files.filterMap (fun f =>
    (urlSearch f).map (fun tb =>
      LinkRow.mk g.datetime tb.1 tb.2 f g.geometry))

/-- pd reset_index(drop=True): discard the stored indices and renumber the
rows densely from 0. -/
def reset_index (df : List (Nat × LinkRow)) : List (Nat × LinkRow) :=
  (df.map Prod.snd).enum

/-- get_earthaccess_links (source lines 405-441): each matched file becomes a
one-row frame with index 0, pd.concat keeps those indices, and
reset_index(drop=True) renumbers them densely. -/
def get_earthaccess_links (results : List Granule) : List (Nat × LinkRow) :=
  reset_index ((results.flatMap (fun g => granule_rows g)).map (fun r => (0, r)))

/-! Granule compositor compute_reflectance_da (source lines 443-508) and the
band raster loader open_dataarray (source lines 448-460). -/

/-- One remote raster file: its raw pixel grid, its nodata sentinel and the
identifier of its coordinate reference system. -/
structure RawFile where
  data : List (List ℚ)
  nodata : ℚ
  crs : Nat

/-- External collaborators closed over by compute_reflectance_da: files maps
a url to its raster file, to_crs models boundary_gdf.to_crs(crs) returning an
opaque reprojected boundary, clip_box models da.rio.clip_box on the bounds of
a reprojected boundary. -/
structure Env where
  files : String → RawFile
  to_crs : Nat → Nat
  clip_box : Nat → Raster → Raster

/-- open_dataarray (source lines 448-460): open the raster, masking the
nodata sentinel to missing exactly when masked is set, multiply by the scale
factor, reproject the boundary when the boundary_proj_gdf argument is None
(the second component counts the reprojections this call performs: 1 exactly
when the argument was None), then clip to the boundary bounding box. The
assignment to boundary_proj_gdf inside the Python function rebinds only the
local parameter, which is why the caller passes the unchanged variable on
every call. -/
def open_dataarray (env : Env) (url : String) (boundary_proj_gdf : Option Nat)
    (scale : ℚ) (masked : Bool) : Raster × Nat :=
  let f := env.files url
  let da : Raster := f.data.map (fun row => row.map (fun v =>
    if masked ∧ v = f.nodata then none else some (v * scale)))
  match boundary_proj_gdf with
  | none => (env.clip_box (env.to_crs f.crs) da, 1)
  | some bp => (env.clip_box bp da, 0)

/-- One output row of compute_reflectance_da: the link table row with its
masked band raster attached in the da column. -/
structure OutRow where
  row : LinkRow
  da : Raster
deriving DecidableEq

def row_key (r : LinkRow) : Nat × String := (r.datetime, r.tile_id)

def group_key_le (a b : Nat × String) : Bool :=
  Nat.blt a.1 b.1 || (a.1 == b.1 && strLe a.2 b.2)

/-- file_df.groupby([datetime, tile_id]) (source line 483): the groups in
sorted key order, each group keeping the original row order. -/
def groups (df : List LinkRow) : List (List LinkRow) :=
  (sortBy group_key_le (dedup (df.map row_key))).map
    (fun k => df.filter (fun r => row_key r == k))

/-- The body of the per-granule loop (source lines 484-505): take the url of
the first Fmask row of the group (.values[0] raises, modelled none, when the
group has no Fmask row), open it unscaled and unmasked, build the quality
mask, and for each row whose band starts with B open the band with scale
0.0001 and masked reading, apply the cloud mask and attach the raster. The
second component counts the boundary reprojections the calls performed. -/
def process_group (env : Env) (boundary_proj_gdf : Option Nat)
    (granule_df : List LinkRow) : Option (List OutRow × Nat) :=
  match (granule_df.filter (fun r => r.band == "Fmask")).head? with
  | none => none
  | some fmask_row =>
    let cloud_call := open_dataarray env fmask_row.url boundary_proj_gdf 1 false
    let cloud_mask := compute_quality_mask_grid cloud_call.1
    let brows := granule_df.filter (fun r => strStartsWith r.band "B")
    let outs := brows.map (fun r =>
      OutRow.mk r (apply_mask
        (open_dataarray env r.url boundary_proj_gdf (1 / 10000) true).1
        cloud_mask))
    let count := cloud_call.2 + (brows.map (fun r =>
      (open_dataarray env r.url boundary_proj_gdf (1 / 10000) true).2)).sum
    some (outs, count)

/-- The per-granule loop: the boundary_proj_gdf variable initialized to None
before the loop (source line 480) is passed to every call and never rebound,
because the assignment inside open_dataarray is local to that function. A
group without an Fmask row aborts the whole computation. -/
def process_groups (env : Env) (boundary_proj_gdf : Option Nat) :
    List (List LinkRow) → Option (List OutRow × Nat)
  | [] => some ([], 0)
  | g :: gs =>
    match process_group env boundary_proj_gdf g with
    | none => none
    | some (outs, c) =>
      match process_groups env boundary_proj_gdf gs with
      | none => none
      | some (rest, c2) => some (outs ++ rest, c + c2)

/-- compute_reflectance_da (source lines 443-508) on an already resolved link
table: group by datetime and tile and concatenate the per-group band rows. -/
def compute_reflectance_da (env : Env) (file_df : List LinkRow) :
    Option (List OutRow) :=
  (process_groups env none (groups file_df)).map Prod.fst

/-- Total number of boundary reprojections boundary_gdf.to_crs performed
during one run of compute_reflectance_da. -/
def boundary_reprojection_count (env : Env) (file_df : List LinkRow) :
    Option Nat :=
  (process_groups env none (groups file_df)).map Prod.snd

/-! Mosaic temporal reducer merge_and_composite_arrays (source lines 543-563). -/

/-- One row of the granule_da_df input: its band code, its datetime and its
masked raster tile. -/
structure BandRow where
  band : String
  datetime : Nat
  da : Raster
deriving DecidableEq

/-- groupby(band) keys in sorted order (source line 547). -/
def band_keys (rows : List BandRow) : List String :=
  sortBy strLe (dedup (rows.map (fun r => r.band)))

/-- groupby(datetime) keys in sorted order (source line 549). -/
def date_keys (rows : List BandRow) : List Nat :=
  sortBy Nat.ble (dedup (rows.map (fun r => r.datetime)))

/-- The per-date merged rasters of one band (source lines 548-555): for each
date, merge the granule tiles of that date and sweep values not strictly
positive to missing. -/
def merged_list (rows : List BandRow) (band : String) : List Raster :=
  (date_keys (rows.filter (fun r => r.band == band))).map (fun dt =>
    where_pos (merge_arrays
      (((rows.filter (fun r => r.band == band)).filter
        (fun r => r.datetime == dt)).map (fun r => r.da))))

/-- int(band[1:]) (source line 559): the numeric band label. -/
def band_num (band : String) : Nat :=
  (strToNat (String.mk (band.data.drop 1))).getD 0

/-- merge_and_composite_arrays (source lines 543-563): for each band in
grouping order, the per-date merged and swept rasters are stacked and reduced
to their per-pixel median, labelled with the numeric band; the final
CompositeRaster is the list of per-band composites (the concat along the band
dimension). -/
def merge_and_composite_arrays (rows : List BandRow) : List (Nat × Raster) :=
  (band_keys rows).map (fun band =>
    (band_num band, composite_cells (merged_list rows band)))

/-! Concrete data used by the witnesses and the evaluation at the failing
input: a single granule group with one Fmask file and one B04 file on a one
pixel grid. -/

def fmask_fileW : RawFile := RawFile.mk [[0]] (-9999) 0

def band_fileW : RawFile := RawFile.mk [[5]] (-9999) 0

def envW : Env :=
  Env.mk (fun u => if u == "b" then band_fileW else fmask_fileW)
    (fun c => c) (fun _ r => r)

def rowFW : LinkRow := LinkRow.mk 0 "T1" "Fmask" "f" []

def rowBW : LinkRow := LinkRow.mk 0 "T1" "B04" "b" []

def dfW : List LinkRow := [rowFW, rowBW]

def outRowW : OutRow := OutRow.mk rowBW [[some (1 / 2000)]]

def dfW9 : List LinkRow := [rowBW]

def bandRowsW : List BandRow := [BandRow.mk "B04" 0 [[some 5]]]

def granuleNameW : String := "HLS.S30.T15RYN.2024180T163901.v2.0.B04.tif"

def granuleW : Granule := Granule.mk "G1" 7 [(1, 2)] [granuleNameW]

def linkRowW : LinkRow := LinkRow.mk 7 "T15RYN" "B04" granuleNameW [(1, 2)]

/-! Helper lemmas about the list and raster operations of the embedding. -/

lemma mem_insSorted {α : Type} (le : α → α → Bool) (x a : α) (l : List α) :
    a ∈ insSorted le x l ↔ a = x ∨ a ∈ l := by
  induction l with
  | nil => simp [insSorted]
  | cons y ys ih =>
    unfold insSorted
    by_cases h : le x y = true
    · rw [if_pos h]
      simp
    · rw [if_neg h, List.mem_cons, ih, List.mem_cons]
      tauto

lemma mem_sortBy {α : Type} (le : α → α → Bool) (a : α) (l : List α) :
    a ∈ sortBy le l ↔ a ∈ l := by
  induction l with
  | nil => simp [sortBy]
  | cons x xs ih => simp [sortBy, mem_insSorted, ih]

lemma mem_dedup {α : Type} [DecidableEq α] (a : α) (l : List α) :
    a ∈ dedup l ↔ a ∈ l := by
  induction l with
  | nil => simp [dedup]
  | cons x xs ih =>
    unfold dedup
    by_cases h : x ∈ xs
    · rw [if_pos h, ih]
      simp only [List.mem_cons]
      constructor
      · exact Or.inr
      · rintro (rfl | ha)
        · exact h
        · exact ha
    · rw [if_neg h]
      simp [ih]

lemma getD_mem {α : Type} (l : List α) (n : Nat) (d : α) (h : n < l.length) :
    l.getD n d ∈ l := by
  rw [List.getD_eq_getElem?_getD, List.getElem?_eq_getElem h, Option.getD_some]
  exact List.getElem_mem h

lemma foldl_mul_shift (l : List Nat) : ∀ a : Nat,
    l.foldl (fun a x => a * x) a = a * l.foldl (fun a x => a * x) 1 := by
  induction l with
  | nil => intro a; simp
  | cons x xs ih =>
    intro a
    simp only [List.foldl_cons]
    rw [ih (a * x), ih (1 * x), one_mul, mul_assoc]

lemma foldl_mul_eq_one (l : List Nat) :
    l.foldl (fun a x => a * x) 1 = 1 ↔ ∀ x ∈ l, x = 1 := by
  induction l with
  | nil => simp
  | cons x xs ih =>
    simp only [List.foldl_cons, one_mul]
    rw [foldl_mul_shift, mul_eq_one, ih]
    simp [List.forall_mem_cons]

lemma mod_two_zero_iff_testBit (v b : Nat) :
    v / 2 ^ b % 2 = 0 ↔ Nat.testBit v b = false := by
  rw [Nat.testBit_to_div_mod]
  rcases Nat.mod_two_eq_zero_or_one (v / 2 ^ b) with h | h <;> simp [h]

lemma rcell_def (r : Raster) (i j : Nat) :
    rcell r i j = ((r[i]?.getD [])[j]?).getD none := by
  unfold rcell
  rw [List.getD_eq_getElem?_getD, List.getD_eq_getElem?_getD]

lemma rcell_mkRaster (hh ww : Nat) (f : Nat → Nat → Option ℚ) (i j : Nat) :
    rcell (mkRaster hh ww f) i j = if i < hh ∧ j < ww then f i j else none := by
  rw [rcell_def]
  unfold mkRaster
  rw [List.getElem?_map]
  by_cases hi : i < hh
  · rw [List.getElem?_range hi]
    simp only [Option.map_some', Option.getD_some]
    rw [List.getElem?_map]
    by_cases hj : j < ww
    · rw [List.getElem?_range hj]
      simp [hi, hj]
    · have hnone : (List.range ww)[j]? = none :=
        List.getElem?_eq_none (by simpa using hj)
      rw [hnone]
      simp [hi, hj]
  · have hnone : (List.range hh)[i]? = none :=
      List.getElem?_eq_none (by simpa using hi)
    rw [hnone]
    simp [hi]

lemma rcell_where_pos (r : Raster) (i j : Nat) :
    rcell (where_pos r) i j
      = (rcell r i j).bind (fun v => if 0 < v then some v else none) := by
  rw [rcell_def, rcell_def]
  unfold where_pos
  rw [List.getElem?_map]
  cases h : r[i]? with
  | none => simp
  | some row =>
    simp only [Option.map_some', Option.getD_some]
    rw [List.getElem?_map]
    cases hrow : row[j]? with
    | none => simp
    | some o => cases o <;> simp

lemma rcell_apply_mask_zero (da : Raster) (mask : List (List Nat)) (i j : Nat)
    (h : (mask.getD i []).getD j 0 = 0) : rcell (apply_mask da mask) i j = none := by
  rw [List.getD_eq_getElem?_getD, List.getD_eq_getElem?_getD] at h
  rw [rcell_def]
  unfold apply_mask
  rw [List.getElem?_zipWith]
  cases hd : da[i]? with
  | none => simp
  | some drow =>
    cases hm : mask[i]? with
    | none => simp
    | some mrow =>
      rw [hm] at h
      simp only [Option.getD_some] at h
      simp only [Option.getD_some]
      rw [List.getElem?_zipWith]
      cases hdj : drow[j]? with
      | none => simp
      | some o =>
        cases hmj : mrow[j]? with
        | none => simp
        | some m =>
          rw [hmj] at h
          simp only [Option.getD_some] at h
          subst h
          simp

lemma medianQ_pos (xs : List ℚ) (hx : ∀ x ∈ xs, 0 < x) (v : ℚ)
    (h : medianQ xs = some v) : 0 < v := by
  unfold medianQ at h
  have hmem : ∀ y ∈ sortBy ratLe xs, 0 < y :=
    fun y hy => hx y ((mem_sortBy _ _ _).mp hy)
  by_cases h0 : (sortBy ratLe xs).length = 0
  · rw [if_pos h0] at h
    exact absurd h (by simp)
  · rw [if_neg h0] at h
    have hpos : 0 < (sortBy ratLe xs).length := Nat.pos_of_ne_zero h0
    have hlt2 : (sortBy ratLe xs).length / 2 < (sortBy ratLe xs).length :=
      Nat.div_lt_self hpos one_lt_two
    by_cases h1 : (sortBy ratLe xs).length % 2 = 1
    · rw [if_pos h1] at h
      obtain rfl := Option.some.inj h
      exact hmem _ (getD_mem _ _ 0 hlt2)
    · rw [if_neg h1] at h
      have hlt1 : (sortBy ratLe xs).length / 2 - 1 < (sortBy ratLe xs).length :=
        lt_of_le_of_lt (Nat.sub_le _ _) hlt2
      obtain rfl := Option.some.inj h
      have h2 := hmem _ (getD_mem _ _ 0 hlt1)
      have h3 := hmem _ (getD_mem _ _ 0 hlt2)
      positivity

lemma filterMap_length_eq {α β : Type} (f : α → Option β) :
    ∀ l : List α, (∀ a ∈ l, (f a).isSome = true) →
      (l.filterMap f).length = l.length := by
  intro l
  induction l with
  | nil => simp
  | cons x xs ih =>
    intro h
    obtain ⟨b, hb⟩ := Option.isSome_iff_exists.mp (h x (by simp))
    rw [List.filterMap_cons, hb]
    simp [ih (fun a ha => h a (by simp [ha]))]

lemma links_map_snd (results : List Granule) :
    (get_earthaccess_links results).map Prod.snd
      = results.flatMap (fun g => granule_rows g) := by
  unfold get_earthaccess_links reset_index
  rw [List.enum_map_snd, List.map_map]
  simp

lemma links_index (results : List Granule) :
    (get_earthaccess_links results).map Prod.fst
      = List.range (get_earthaccess_links results).length := by
  unfold get_earthaccess_links reset_index
  rw [List.enum_map_fst, List.enum_length]

lemma process_groups_eq_none (env : Env) (bp : Option Nat)
    (gs : List (List LinkRow)) (g : List LinkRow) (hg : g ∈ gs)
    (h : process_group env bp g = none) : process_groups env bp gs = none := by
  induction gs with
  | nil => cases hg
  | cons g0 gs0 ih =>
    rcases List.mem_cons.mp hg with rfl | hmem
    · unfold process_groups
      rw [h]
    · unfold process_groups
      cases h0 : process_group env bp g0 with
      | none => rfl
      | some pr =>
        obtain ⟨outs, c⟩ := pr
        rw [ih hmem]

lemma mem_process_groups (env : Env) (bp : Option Nat) :
    ∀ (gs : List (List LinkRow)) (outs : List OutRow) (c : Nat),
      process_groups env bp gs = some (outs, c) →
      ∀ o : OutRow, (o ∈ outs ↔ ∃ g ∈ gs, ∃ og cg,
        process_group env bp g = some (og, cg) ∧ o ∈ og) := by
  intro gs
  induction gs with
  | nil =>
    intro outs c h o
    unfold process_groups at h
    obtain ⟨rfl, rfl⟩ := Prod.mk.inj (Option.some.inj h)
    simp
  | cons g0 gs0 ih =>
    intro outs c h o
    unfold process_groups at h
    cases h0 : process_group env bp g0 with
    | none =>
      rw [h0] at h
      exact absurd h (by simp)
    | some pr =>
      obtain ⟨og0, c0⟩ := pr
      rw [h0] at h
      cases h1 : process_groups env bp gs0 with
      | none =>
        rw [h1] at h
        exact absurd h (by simp)
      | some pr2 =>
        obtain ⟨rest, c2⟩ := pr2
        rw [h1] at h
        obtain ⟨houts, _⟩ := Prod.mk.inj (Option.some.inj h)
        subst houts
        rw [List.mem_append, ih rest c2 h1 o]
        constructor
        · rintro (ho | ⟨g, hgmem, og, cg, hpg, ho⟩)
          · exact ⟨g0, by simp, og0, c0, h0, ho⟩
          · exact ⟨g, by simp [hgmem], og, cg, hpg, ho⟩
        · rintro ⟨g, hgmem, og, cg, hpg, ho⟩
          rcases List.mem_cons.mp hgmem with rfl | hgmem0
          · left
            obtain ⟨hog, _⟩ := Prod.mk.inj (Option.some.inj (h0.symm.trans hpg))
            rw [hog]
            exact ho
          · right
            exact ⟨g, hgmem0, og, cg, hpg, ho⟩

lemma process_group_some (env : Env) (bp : Option Nat) (g : List LinkRow)
    (og : List OutRow) (c : Nat) (h : process_group env bp g = some (og, c)) :
    ∃ fr, (g.filter (fun r => r.band == "Fmask")).head? = some fr ∧
      og = (g.filter (fun r => strStartsWith r.band "B")).map (fun r =>
        OutRow.mk r (apply_mask
          (open_dataarray env r.url bp (1 / 10000) true).1
          (compute_quality_mask_grid
            (open_dataarray env fr.url bp 1 false).1))) := by
  unfold process_group at h
  cases hf : (g.filter (fun r => r.band == "Fmask")).head? with
  | none =>
    rw [hf] at h
    exact absurd h (by simp)
  | some fr =>
    rw [hf] at h
    refine ⟨fr, rfl, ?_⟩
    exact (congrArg Prod.fst (Option.some.inj h)).symm

/-! Theorems settling the claims. -/

/-- C3: for every 8-bit input value and every list of disqualifying bit
positions below 8, compute_quality_mask unpacks the value into 8 bits in
least-significant-bit-first order and marks the pixel usable (mask value 1)
if and only if all bits at the selected positions are zero; with the default
mask_bits [1,2,3], the value 0b00001010 is unusable and 0b00000001 usable. -/
theorem claim_C3_quality_mask :
    (∀ (v : Nat) (mask_bits : List Nat), v < 256 → (∀ b ∈ mask_bits, b < 8) →
      (compute_quality_mask_value v mask_bits = 1 ↔
        ∀ b ∈ mask_bits, Nat.testBit v b = false))
  ∧ compute_quality_mask_value 10 [1, 2, 3] = 0
  ∧ compute_quality_mask_value 1 [1, 2, 3] = 1 := by
  refine ⟨?_, by decide, by decide⟩
  intro v mask_bits hv hb
  unfold compute_quality_mask_value
  rw [foldl_mul_eq_one]
  constructor
  · intro h b hbm
    have h1 := h _ (List.mem_map_of_mem _ hbm)
    have hgetD : (unpackbits_le (v % 256)).getD b 0 = v / 2 ^ b % 2 := by
      rw [Nat.mod_eq_of_lt hv]
      unfold unpackbits_le
      rw [List.getD_eq_getElem?_getD, List.getElem?_map,
        List.getElem?_range (hb b hbm)]
      rfl
    rw [hgetD] at h1
    by_cases hz : v / 2 ^ b % 2 = 0
    · exact (mod_two_zero_iff_testBit v b).mp hz
    · rw [if_neg hz] at h1
      exact absurd h1 (by simp)
  · intro h y hy
    obtain ⟨b, hbm, rfl⟩ := List.mem_map.mp hy
    have hgetD : (unpackbits_le (v % 256)).getD b 0 = v / 2 ^ b % 2 := by
      rw [Nat.mod_eq_of_lt hv]
      unfold unpackbits_le
      rw [List.getD_eq_getElem?_getD, List.getElem?_map,
        List.getElem?_range (hb b hbm)]
      rfl
    rw [hgetD, if_pos ((mod_two_zero_iff_testBit v b).mpr (h b hbm))]

/-- C4: the wrapper produced by cached uses effective key equal to the
function key when no discriminator is supplied and key_discriminator
otherwise; a call executes the wrapped computation and stores its serialized
result exactly when override is true or no stored blob exists for the key,
and otherwise deserializes and returns the previously stored result, equal to
the original value when serialization round-trips, without re-running; a call
with override true always re-invokes the computation. -/
theorem claim_C4_cache_contract {α β : Type} (fk d : String) (ov : Bool)
    (cf : Unit → α) (dump : α → β) (load : β → α) (ck : Option String)
    (st : List (String × β)) :
    effective_key fk none = fk
  ∧ effective_key fk (some d) = fk ++ "_" ++ d
  ∧ (compute_and_cache fk ov cf dump load ck st).2.2
      = (ov || (store_lookup st (effective_key fk ck)).isNone)
  ∧ ((compute_and_cache fk ov cf dump load ck st).2.2 = true →
      (compute_and_cache fk ov cf dump load ck st).1 = cf ()
      ∧ store_lookup (compute_and_cache fk ov cf dump load ck st).2.1
          (effective_key fk ck) = some (dump (cf ())))
  ∧ (∀ R : α, ov = false →
      store_lookup st (effective_key fk ck) = some (dump R) →
      load (dump R) = R →
      (compute_and_cache fk ov cf dump load ck st).1 = R
      ∧ (compute_and_cache fk ov cf dump load ck st).2.2 = false)
  ∧ (ov = true → (compute_and_cache fk ov cf dump load ck st).2.2 = true) := by
  refine ⟨rfl, rfl, ?_, ?_, ?_, ?_⟩
  · unfold compute_and_cache
    cases h : store_lookup st (effective_key fk ck) <;> cases ov <;>
      simp [h, store_insert, store_lookup]
  · unfold compute_and_cache
    cases h : store_lookup st (effective_key fk ck) <;> cases ov <;>
      simp [h, store_insert, store_lookup]
  · intro R hov hst hload
    subst hov
    simp [compute_and_cache, hst, hload]
  · intro hov
    subst hov
    unfold compute_and_cache
    cases h : store_lookup st (effective_key fk ck) <;> simp [h]

/-- C5: the override parameter of cached defaults to True, so a decorator
applied without an explicit override argument produces a wrapper whose every
invocation re-executes the computation and overwrites the stored blob for the
key; a previously stored result is only returned on calls whose override is
false. -/
theorem claim_C5_override_default {α β : Type} (fk : String) (cf : Unit → α)
    (dump : α → β) (load : β → α) (ck : Option String)
    (st : List (String × β)) :
    cached_override_default = true
  ∧ (cached_apply_default fk cf dump load ck st).2.2 = true
  ∧ (cached_apply_default fk cf dump load ck st).1 = cf ()
  ∧ store_lookup (cached_apply_default fk cf dump load ck st).2.1
      (effective_key fk ck) = some (dump (cf ()))
  ∧ (∀ ov : Bool, (compute_and_cache fk ov cf dump load ck st).2.2 = false →
      ov = false) := by
  refine ⟨rfl, ?_, ?_, ?_, ?_⟩
  · unfold cached_apply_default cached_override_default compute_and_cache
    cases h : store_lookup st (effective_key fk ck) <;> simp [h]
  · unfold cached_apply_default cached_override_default compute_and_cache
    cases h : store_lookup st (effective_key fk ck) <;> simp [h]
  · unfold cached_apply_default cached_override_default compute_and_cache
    cases h : store_lookup st (effective_key fk ck) <;>
      simp [h, store_insert, store_lookup]
  · intro ov
    cases ov
    · intro _
      rfl
    · unfold compute_and_cache
      cases h : store_lookup st (effective_key fk ck) <;> simp [h]

/-- C10: the claim that the watershed boundary is reprojected at most once
per run of compute_reflectance_da is refuted by the code: the reprojected
boundary computed inside open_dataarray is bound only to the local parameter,
the loop variable stays None, and every call with a None boundary reprojects
again; on a single granule group with one Fmask file and one spectral band
file the run performs 2 reprojections, not at most 1. -/
theorem claim_C10_reprojection_every_call :
    boundary_reprojection_count envW dfW = some 2
  ∧ (∀ (env : Env) (url : String) (scale : ℚ) (masked : Bool),
      (open_dataarray env url none scale masked).2 = 1) := by
  constructor
  · with_unfolding_all rfl
  · intro env url scale masked
    rfl

/-- C1: the negative-value sweep sets every merged pixel with value not
strictly positive to missing, and consequently every cell of the final
CompositeRaster returned by merge_and_composite_arrays is either missing or
strictly positive, so no value at or below 0 ever appears. -/
theorem claim_C1_negative_sweep :
    (∀ (r : Raster) (i j : Nat) (v : ℚ),
      rcell (where_pos r) i j = some v → 0 < v ∧ rcell r i j = some v)
  ∧ (∀ (rows : List BandRow) (b : Nat) (comp : Raster),
      (b, comp) ∈ merge_and_composite_arrays rows →
      ∀ (i j : Nat) (v : ℚ), rcell comp i j = some v → 0 < v) := by
  have part1 : ∀ (r : Raster) (i j : Nat) (v : ℚ),
      rcell (where_pos r) i j = some v → 0 < v ∧ rcell r i j = some v := by
    intro r i j v h
    rw [rcell_where_pos] at h
    cases hc : rcell r i j with
    | none =>
      rw [hc] at h
      exact absurd h (by simp)
    | some w =>
      rw [hc] at h
      simp only [Option.some_bind] at h
      by_cases hw : 0 < w
      · rw [if_pos hw] at h
        have hv : w = v := Option.some.inj h
        rw [← hv]
        exact ⟨hw, rfl⟩
      · rw [if_neg hw] at h
        exact absurd h (by simp)
  refine ⟨part1, ?_⟩
  intro rows b comp hmem i j v hv
  unfold merge_and_composite_arrays at hmem
  obtain ⟨band, hband, heq⟩ := List.mem_map.mp hmem
  have h2 : composite_cells (merged_list rows band) = comp :=
    congrArg Prod.snd heq
  subst h2
  unfold composite_cells at hv
  rw [rcell_mkRaster] at hv
  by_cases hij : i < raster_h ((merged_list rows band).headD [])
      ∧ j < raster_w ((merged_list rows band).headD [])
  · rw [if_pos hij] at hv
    refine medianQ_pos _ ?_ v hv
    intro x hxv
    obtain ⟨o, ho, hox⟩ := List.mem_filterMap.mp hxv
    obtain ⟨dr, hdr, rfl⟩ := List.mem_map.mp ho
    simp only [id] at hox
    unfold merged_list at hdr
    obtain ⟨dt, _, rfl⟩ := List.mem_map.mp hdr
    exact (part1 _ i j x hox).1
  · rw [if_neg hij] at hv
    exact absurd hv (by simp)

/-- C2: the composite raster of each band maps every pixel to the per-pixel
median of the non-missing values across the per-date merged rasters; a pixel
with exactly one non-missing date takes that value, and a pixel missing on
all dates stays missing. -/
theorem claim_C2_median_composite (rows : List BandRow) (band : String)
    (hb : band ∈ band_keys rows) :
    ((band_num band, composite_cells (merged_list rows band))
      ∈ merge_and_composite_arrays rows)
  ∧ (∀ i j : Nat,
      i < raster_h ((merged_list rows band).headD []) →
      j < raster_w ((merged_list rows band).headD []) →
      rcell (composite_cells (merged_list rows band)) i j
          = medianQ (valid_values (merged_list rows band) i j)
      ∧ (∀ v : ℚ, valid_values (merged_list rows band) i j = [v] →
          rcell (composite_cells (merged_list rows band)) i j = some v)
      ∧ (valid_values (merged_list rows band) i j = [] →
          rcell (composite_cells (merged_list rows band)) i j = none)) := by
  constructor
  · exact List.mem_map_of_mem _ hb
  · intro i j hi hj
    have hc : rcell (composite_cells (merged_list rows band)) i j
        = medianQ (valid_values (merged_list rows band) i j) := by
      unfold composite_cells
      rw [rcell_mkRaster, if_pos ⟨hi, hj⟩]
    refine ⟨hc, ?_, ?_⟩
    · intro v hv
      rw [hc, hv]
      simp [medianQ, sortBy, insSorted]
    · intro hv
      rw [hc, hv]
      simp [medianQ, sortBy]

/-- C7: the filename matcher of get_earthaccess_links extracts the tile and
band capture groups on the sample name, yields no match when the .tif
extension or the version segment is missing, and a link table row for a file
is emitted exactly when the matcher produces a match for its name. -/
theorem claim_C7_filename_grammar :
    urlSearch "HLS.S30.T15RYN.2024180T163901.v2.0.B04.tif"
      = some ("T15RYN", "B04")
  ∧ urlSearch "HLS.S30.T15RYN.2024180T163901.v2.0.B04" = none
  ∧ urlSearch "HLS.S30.T15RYN.2024180T163901.B04.tif" = none
  ∧ (∀ (g : Granule) (f : String), f ∈ g.files →
      ((∃ r, r ∈ granule_rows g ∧ r.url = f) ↔ (urlSearch f).isSome = true)) := by
  refine ⟨by decide, by decide, by decide, ?_⟩
  intro g f hf
  constructor
  · rintro ⟨r, hr, hurl⟩
    obtain ⟨f2, hf2, hsome⟩ := List.mem_filterMap.mp hr
    obtain ⟨tb, htb, hrr⟩ := Option.map_eq_some'.mp hsome
    have hu : r.url = f2 := by
      rw [← hrr]
    rw [hurl] at hu
    rw [hu, htb]
    rfl
  · intro hsome
    obtain ⟨tb, htb⟩ := Option.isSome_iff_exists.mp hsome
    refine ⟨LinkRow.mk g.datetime tb.1 tb.2 f g.geometry,
      List.mem_filterMap.mpr ⟨f, hf, ?_⟩, rfl⟩
    rw [htb]
    rfl

/-- C8: for a granule all of whose file references match the grammar, the
resolver emits exactly one row per file, each carrying the granule datetime
and footprint, every such row appears in the concatenated link table, and the
link table index is the dense range 0..M-1. -/
theorem claim_C8_link_table (results : List Granule) (g : Granule)
    (hg : g ∈ results) (hall : ∀ f ∈ g.files, (urlSearch f).isSome = true) :
    (granule_rows g).length = g.files.length
  ∧ (∀ r ∈ granule_rows g, r.datetime = g.datetime ∧ r.geometry = g.geometry)
  ∧ (∀ r ∈ granule_rows g, r ∈ (get_earthaccess_links results).map Prod.snd)
  ∧ (get_earthaccess_links results).map Prod.fst
      = List.range (get_earthaccess_links results).length := by
  refine ⟨?_, ?_, ?_, links_index results⟩
  · unfold granule_rows
    refine filterMap_length_eq _ g.files ?_
    intro f hf
    rw [Option.isSome_map']
    exact hall f hf
  · intro r hr
    obtain ⟨f2, hf2, hsome⟩ := List.mem_filterMap.mp hr
    obtain ⟨tb, htb, hrr⟩ := Option.map_eq_some'.mp hsome
    rw [← hrr]
    exact ⟨rfl, rfl⟩
  · intro r hr
    rw [links_map_snd]
    exact List.mem_flatMap.mpr ⟨g, hg, hr⟩

/-- C6: when compute_reflectance_da succeeds, its output consists exactly of
the rows of each (datetime, tile) group whose band code begins with B, each
carrying the band raster opened with scale 0.0001 and masked reading, with
the quality mask built from the group Fmask tile opened unscaled and with
masked reading disabled applied so that every pixel the mask rejects is
missing; Fmask and other non-B rows never appear in the output. -/
theorem claim_C6_granule_compositor (env : Env) (df : List LinkRow)
    (out : List OutRow) (h : compute_reflectance_da env df = some out) :
    (∀ o ∈ out, strStartsWith o.row.band "B" = true)
  ∧ (∀ o : OutRow, o ∈ out ↔ ∃ g ∈ groups df, ∃ fr,
      (g.filter (fun r => r.band == "Fmask")).head? = some fr ∧
      ∃ r ∈ g, strStartsWith r.band "B" = true ∧
        o = OutRow.mk r (apply_mask
          (open_dataarray env r.url none (1 / 10000) true).1
          (compute_quality_mask_grid
            (open_dataarray env fr.url none 1 false).1)))
  ∧ (∀ (da : Raster) (mask : List (List Nat)) (i j : Nat),
      (mask.getD i []).getD j 0 = 0 →
      rcell (apply_mask da mask) i j = none) := by
  unfold compute_reflectance_da at h
  obtain ⟨pr, hpr, hfst⟩ := Option.map_eq_some'.mp h
  obtain ⟨outs, c⟩ := pr
  have houts : outs = out := hfst
  rw [houts] at hpr
  have hmem := mem_process_groups env none (groups df) out c hpr
  have hiff : ∀ o : OutRow, o ∈ out ↔ ∃ g ∈ groups df, ∃ fr,
      (g.filter (fun r => r.band == "Fmask")).head? = some fr ∧
      ∃ r ∈ g, strStartsWith r.band "B" = true ∧
        o = OutRow.mk r (apply_mask
          (open_dataarray env r.url none (1 / 10000) true).1
          (compute_quality_mask_grid
            (open_dataarray env fr.url none 1 false).1)) := by
    intro o
    rw [hmem o]
    constructor
    · rintro ⟨g, hg, og, cg, hpg, ho⟩
      obtain ⟨fr, hfr, rfl⟩ := process_group_some env none g og cg hpg
      obtain ⟨r, hrf, rfl⟩ := List.mem_map.mp ho
      obtain ⟨hrg, hrB⟩ := List.mem_filter.mp hrf
      exact ⟨g, hg, fr, hfr, r, hrg, hrB, rfl⟩
    · rintro ⟨g, hg, fr, hfr, r, hrg, hrB, rfl⟩
      refine ⟨g, hg, ?_, ?_, ?_, ?_⟩
      · exact (g.filter (fun r => strStartsWith r.band "B")).map (fun r =>
          OutRow.mk r (apply_mask
            (open_dataarray env r.url none (1 / 10000) true).1
            (compute_quality_mask_grid
              (open_dataarray env fr.url none 1 false).1)))
      · exact (open_dataarray env fr.url none 1 false).2
          + ((g.filter (fun r => strStartsWith r.band "B")).map (fun r =>
              (open_dataarray env r.url none (1 / 10000) true).2)).sum
      · unfold process_group
        rw [hfr]
      · exact List.mem_map.mpr ⟨r, List.mem_filter.mpr ⟨hrg, hrB⟩, rfl⟩
  refine ⟨?_, hiff, ?_⟩
  · intro o ho
    obtain ⟨g, _, fr, _, r, _, hrB, rfl⟩ := (hiff o).mp ho
    exact hrB
  · intro da mask i j hm
    exact rcell_apply_mask_zero da mask i j hm

/-- C9: a (datetime, tile) group of the link table containing no Fmask row
makes compute_reflectance_da fail (the modelled IndexError of .values[0]
propagates as none), so no masked band rasters are produced for any group. -/
theorem claim_C9_missing_fmask (env : Env) (df : List LinkRow)
    (g : List LinkRow) (hg : g ∈ groups df)
    (hno : ∀ r ∈ g, r.band ≠ "Fmask") :
    compute_reflectance_da env df = none := by
  have hfil : g.filter (fun r => r.band == "Fmask") = [] :=
    List.filter_eq_nil_iff.mpr (fun r hr => by simpa using hno r hr)
  have hpg : process_group env none g = none := by
    unfold process_group
    rw [hfil]
    rfl
  unfold compute_reflectance_da
  rw [process_groups_eq_none env none (groups df) g hg hpg]
  rfl

/-- Witness for C1 at a concrete one-row input. -/
theorem claim_C1_witness :
    (4, [[some (5 : ℚ)]]) ∈ merge_and_composite_arrays bandRowsW
    ∧ (0 : ℚ) < 5 := by
  have hm : (4, [[some (5 : ℚ)]]) ∈ merge_and_composite_arrays bandRowsW := by
    have h : merge_and_composite_arrays bandRowsW = [(4, [[some 5]])] := by
      decide
    rw [h]
    exact List.mem_singleton.mpr rfl
  exact ⟨hm, claim_C1_negative_sweep.2 bandRowsW 4 [[some 5]] hm 0 0 5 (by decide)⟩

/-- Witness for C2 at a concrete one-row input. -/
theorem claim_C2_witness :
    rcell (composite_cells (merged_list bandRowsW "B04")) 0 0 = some 5 := by
  have hb : "B04" ∈ band_keys bandRowsW := by
    have h : band_keys bandRowsW = ["B04"] := by decide
    rw [h]
    exact List.mem_singleton.mpr rfl
  exact ((claim_C2_median_composite bandRowsW "B04" hb).2 0 0 (by decide)
    (by decide)).2.1 5 (by decide)

/-- Witness for C3 at the documented usable value. -/
theorem claim_C3_witness : compute_quality_mask_value 1 [1, 2, 3] = 1 :=
  (claim_C3_quality_mask.1 1 [1, 2, 3] (by decide) (by decide)).mpr (by decide)

/-- Witness for C4: with override false and a stored blob, the stored result
is returned. -/
theorem claim_C4_witness :
    (@compute_and_cache Nat Nat "f" false (fun _ => 7) (fun a => a)
      (fun b => b) none [("f", 5)]).1 = 5 :=
  ((@claim_C4_cache_contract Nat Nat "f" "d" false (fun _ => 7) (fun a => a)
    (fun b => b) none [("f", 5)]).2.2.2.2.1 5 rfl (by decide) rfl).1

/-- Witness for C5: the default-override wrapper runs the computation. -/
theorem claim_C5_witness :
    (@cached_apply_default Nat Nat "k" (fun _ => 3) (fun a => a) (fun b => b)
      none []).2.2 = true :=
  (@claim_C5_override_default Nat Nat "k" (fun _ => 3) (fun a => a)
    (fun b => b) none []).2.1

/-- Witness for C6 at a concrete one-group link table. -/
theorem claim_C6_witness : strStartsWith outRowW.row.band "B" = true := by
  have h := claim_C6_granule_compositor envW dfW [outRowW]
    (by with_unfolding_all rfl)
  exact h.1 outRowW (List.mem_singleton.mpr rfl)

/-- Witness for C7 at the sample granule. -/
theorem claim_C7_witness : (urlSearch granuleNameW).isSome = true := by
  have h := claim_C7_filename_grammar.2.2.2 granuleW granuleNameW
    (List.mem_singleton.mpr rfl)
  refine h.mp ⟨linkRowW, ?_, rfl⟩
  have hrows : granule_rows granuleW = [linkRowW] := by decide
  rw [hrows]
  exact List.mem_singleton.mpr rfl

/-- Witness for C8 at the sample granule. -/
theorem claim_C8_witness : (granule_rows granuleW).length = 1 := by
  have h := claim_C8_link_table [granuleW] granuleW
    (List.mem_singleton.mpr rfl) (by decide)
  exact h.1.trans rfl

/-- Witness for C9 at a concrete group without an Fmask row. -/
theorem claim_C9_witness : compute_reflectance_da envW dfW9 = none := by
  have hg : [rowBW] ∈ groups dfW9 := by
    have h : groups dfW9 = [[rowBW]] := by decide
    rw [h]
    exact List.mem_singleton.mpr rfl
  exact claim_C9_missing_fmask envW dfW9 [rowBW] hg (by decide)
